import Mathlib

/-!
Verification development for the ba-agent repository.

Two subsystems are embedded from the source:

* the Response Normalizer of `server/api.js` (`getGroqCompletion`'s parse
  cascade and the `repairJSON` helper), modelled as executable functions on
  `String`/`List Char`.  The JavaScript builtin `JSON.parse` is modelled by
  an executable recursive-descent parser `parseJSON` (JSON numbers are
  modelled as integers; string escapes are handled); each regex replace of
  `repairJSON` is modelled by a dedicated scanner with JavaScript's global,
  leftmost, greedy-with-backtracking semantics for that particular pattern.
* the Diagram Resolver of `src/components/PlantUMLViewer.jsx` (the effect
  body, `simplifyUml` and the fallback branch), with the external
  `plantuml-encoder` library abstracted as a parameter `enc`, and the
  task-validation logic of the `/api/breakdown-tasks` route handler.

Braces inside string literals are written with the escapes \x7b and \x7d.
-/

/-! ## Character and list utilities -/

/-- The whitespace characters of JSON (and the ASCII core of JavaScript
regex `\s` / `String.prototype.trim`). -/
def wsChar (c : Char) : Bool :=
  c == ' ' || c == '\t' || c == '\n' || c == '\r'

/-- Drop leading whitespace. -/
def dropWS (l : List Char) : List Char := l.dropWhile wsChar

/-- Trim whitespace at both ends (model of `String.prototype.trim`). -/
def trimChars (l : List Char) : List Char :=
  ((l.dropWhile wsChar).reverse.dropWhile wsChar).reverse

/-- Model of `String.prototype.trim`. -/
def trimStr (s : String) : String := String.mk (trimChars s.data)

/-- ASCII lower-casing of one character. -/
def lowerChar (c : Char) : Char :=
  if 'A' ≤ c ∧ c ≤ 'Z' then Char.ofNat (c.toNat + 32) else c

/-- Model of `String.prototype.toLowerCase` (ASCII). -/
def lowerStr (s : String) : String := String.mk (s.data.map lowerChar)

/-- `listPrefixOf p l` is true when `p` is a prefix of `l`. -/
def listPrefixOf : List Char → List Char → Bool
  | [], _ => true
  | _ :: _, [] => false
  | p :: ps, c :: cs => p == c && listPrefixOf ps cs

/-- `containsList n h` is true when `n` occurs as a contiguous run in `h`
(model of `String.prototype.includes`). -/
def containsList (n : List Char) : List Char → Bool
  | [] => n.isEmpty
  | c :: cs => listPrefixOf n (c :: cs) || containsList n cs

/-- `containsStr s pat`: model of `s.includes(pat)`. -/
def containsStr (s pat : String) : Bool := containsList pat.data s.data

/-- If `lit` is a prefix of `l`, the rest of `l` after it. -/
def dropLit : List Char → List Char → Option (List Char)
  | [], l => some l
  | _ :: _, [] => none
  | c :: cs, d :: ds => if c == d then dropLit cs ds else none

/-! ## The JSON value model and the model of `JSON.parse` -/

/-- JavaScript values as far as the embedded code inspects them.  JSON
numbers are modelled as integers (fractions and exponents are out of the
model); `jundefined` is JavaScript's `undefined` (never produced by parsing). -/
inductive JVal where
  | jnull
  | jundefined
  | jbool (b : Bool)
  | jnum (n : Int)
  | jstr (s : String)
  | jarr (xs : List JVal)
  | jobj (fs : List (String × JVal))

/-- The value of one hexadecimal digit. -/
def hexVal (c : Char) : Option Nat :=
  if '0' ≤ c ∧ c ≤ '9' then some (c.toNat - '0'.toNat)
  else if 'a' ≤ c ∧ c ≤ 'f' then some (c.toNat - 'a'.toNat + 10)
  else if 'A' ≤ c ∧ c ≤ 'F' then some (c.toNat - 'A'.toNat + 10)
  else none

/-- Body of a JSON string after the opening quote: the decoded characters
and the rest of the input after the closing quote. -/
def parseStringBody : List Char → Except String (List Char × List Char)
  | [] => .error "unterminated string"
  | '"' :: r => .ok ([], r)
  | '\\' :: 'u' :: a :: b :: c :: d :: r =>
    match hexVal a, hexVal b, hexVal c, hexVal d with
    | some x, some y, some z, some w =>
      match parseStringBody r with
      | .ok (cs, rest) => .ok (Char.ofNat (((x * 16 + y) * 16 + z) * 16 + w) :: cs, rest)
      | .error e => .error e
    | _, _, _, _ => .error "invalid unicode escape"
  | '\\' :: e :: r =>
    match (if e == '"' then some '"'
           else if e == '\\' then some '\\'
           else if e == '/' then some '/'
           else if e == 'n' then some '\n'
           else if e == 't' then some '\t'
           else if e == 'r' then some '\r'
           else if e == 'b' then some (Char.ofNat 8)
           else if e == 'f' then some (Char.ofNat 12)
           else none) with
    | some c =>
      match parseStringBody r with
      | .ok (cs, rest) => .ok (c :: cs, rest)
      | .error err => .error err
    | none => .error "invalid escape"
  | c :: r =>
    match parseStringBody r with
    | .ok (cs, rest) => .ok (c :: cs, rest)
    | .error err => .error err

/-- Digits to a natural number. -/
def digitsToNat (ds : List Char) : Nat :=
  ds.foldl (fun acc c => acc * 10 + (c.toNat - '0'.toNat)) 0

/-- A JSON number (modelled as an integer: a fraction or exponent is a
parse error in the model). -/
def parseNum (l : List Char) : Except String (JVal × List Char) :=
  let core : List Char → Except String (Nat × List Char) := fun m =>
    let ds := m.takeWhile Char.isDigit
    let rest := m.dropWhile Char.isDigit
    if ds.isEmpty then .error "invalid number"
    else match rest with
      | '.' :: _ => .error "unsupported number syntax"
      | 'e' :: _ => .error "unsupported number syntax"
      | 'E' :: _ => .error "unsupported number syntax"
      | _ => .ok (digitsToNat ds, rest)
  match l with
  | '-' :: m =>
    match core m with
    | .ok (n, rest) => .ok (.jnum (-(n : Int)), rest)
    | .error e => .error e
  | m =>
    match core m with
    | .ok (n, rest) => .ok (.jnum (n : Int), rest)
    | .error e => .error e

mutual

/-- One JSON value starting at the input (leading whitespace allowed),
with the rest of the input: the model of the recursive core of
`JSON.parse`.  `f` is fuel. -/
def parseVal : Nat → List Char → Except String (JVal × List Char)
  | 0, _ => .error "out of fuel"
  | f + 1, l =>
    match dropWS l with
    | [] => .error "unexpected end of input"
    | '\x7b' :: r =>
      match dropWS r with
      | '\x7d' :: r2 => .ok (.jobj [], r2)
      | r1 =>
        match parseMembers f r1 with
        | .ok (fs, rest) => .ok (.jobj fs, rest)
        | .error e => .error e
    | '[' :: r =>
      match dropWS r with
      | ']' :: r2 => .ok (.jarr [], r2)
      | r1 =>
        match parseItems f r1 with
        | .ok (xs, rest) => .ok (.jarr xs, rest)
        | .error e => .error e
    | '"' :: r =>
      match parseStringBody r with
      | .ok (cs, rest) => .ok (.jstr (String.mk cs), rest)
      | .error e => .error e
    | 'n' :: r =>
      match dropLit ['u', 'l', 'l'] r with
      | some rest => .ok (.jnull, rest)
      | none => .error "invalid literal"
    | 't' :: r =>
      match dropLit ['r', 'u', 'e'] r with
      | some rest => .ok (.jbool true, rest)
      | none => .error "invalid literal"
    | 'f' :: r =>
      match dropLit ['a', 'l', 's', 'e'] r with
      | some rest => .ok (.jbool false, rest)
      | none => .error "invalid literal"
    | c :: r =>
      if c == '-' || c.isDigit then parseNum (c :: r)
      else .error ("unexpected character " ++ String.mk [c])

/-- The members of a JSON object after its opening brace (first member's
key expected at the head of the input). -/
def parseMembers : Nat → List Char → Except String (List (String × JVal) × List Char)
  | 0, _ => .error "out of fuel"
  | f + 1, l =>
    match l with
    | '"' :: r =>
      match parseStringBody r with
      | .ok (k, r1) =>
        match dropWS r1 with
        | ':' :: r2 =>
          match parseVal f r2 with
          | .ok (v, r3) =>
            match dropWS r3 with
            | ',' :: r4 =>
              match parseMembers f (dropWS r4) with
              | .ok (fs, rest) => .ok ((String.mk k, v) :: fs, rest)
              | .error e => .error e
            | '\x7d' :: r4 => .ok ([(String.mk k, v)], r4)
            | _ => .error "expected comma or closing brace in object"
          | .error e => .error e
        | _ => .error "expected colon in object"
      | .error e => .error e
    | _ => .error "expected string key in object"

/-- The items of a JSON array after its opening bracket (first item
expected at the head of the input). -/
def parseItems : Nat → List Char → Except String (List JVal × List Char)
  | 0, _ => .error "out of fuel"
  | f + 1, l =>
    match parseVal f l with
    | .ok (v, r) =>
      match dropWS r with
      | ',' :: r2 =>
        match parseItems f r2 with
        | .ok (xs, rest) => .ok (v :: xs, rest)
        | .error e => .error e
      | ']' :: r2 => .ok ([v], r2)
      | _ => .error "expected comma or closing bracket in array"
    | .error e => .error e

end

/-- Model of `JSON.parse`: one JSON value spanning the whole input (up to
surrounding whitespace). -/
def parseJSON (s : String) : Except String JVal :=
  match parseVal (4 * s.data.length + 16) s.data with
  | .ok (v, rest) =>
    if (dropWS rest).isEmpty then .ok v else .error "unexpected trailing characters"
  | .error e => .error e

/-! ## The repair pass (`repairJSON` of `server/api.js`)

Each global regex replace is modelled by a matcher tried at every
position: on a match the replacement is emitted and scanning resumes
after the matched text; otherwise one character is copied (JavaScript's
global-replace semantics).  Every matcher consumes at least one
character, so fuel equal to the input length suffices. -/

/-- Global replace driven by a matcher `m`: at the head of the input, `m`
yields the replacement text and the rest after the match, or nothing. -/
def runReplace (m : List Char → Option (List Char × List Char)) :
    Nat → List Char → List Char
  | 0, l => l
  | _ + 1, [] => []
  | f + 1, c :: cs =>
    match m (c :: cs) with
    | some (rep, rest) => rep ++ runReplace m f rest
    | none => c :: runReplace m f cs

/-- Matcher for `<[^>]+>` (replacement empty): an XML-like tag. -/
def mTag : List Char → Option (List Char × List Char)
  | '<' :: r =>
    match List.span (fun c => c != '>') r with
    | (body, '>' :: rest) => if body.isEmpty then none else some ([], rest)
    | _ => none
  | _ => none

/-- Matcher for a backtick code fence opener with language tag,
"```json" followed by an optional newline (replacement empty). -/
def mFenceJson (l : List Char) : Option (List Char × List Char) :=
  match dropLit ['`', '`', '`', 'j', 's', 'o', 'n'] l with
  | some ('\n' :: rest) => some ([], rest)
  | some rest => some ([], rest)
  | none => none

/-- Matcher for a bare "```" fence followed by an optional newline
(replacement empty). -/
def mFence (l : List Char) : Option (List Char × List Char) :=
  match dropLit ['`', '`', '`'] l with
  | some ('\n' :: rest) => some ([], rest)
  | some rest => some ([], rest)
  | none => none

/-- `str.slice(firstBrace, lastBrace + 1)` when both a `{` and a `}`
occur (the `indexOf`/`lastIndexOf` truncation of `repairJSON`). -/
def sliceBraces (l : List Char) : List Char :=
  match l.findIdx? (fun c => c == '\x7b'), l.reverse.findIdx? (fun c => c == '\x7d') with
  | some i, some jr => (l.take (l.length - jr)).drop i
  | _, _ => l

/-- A quote character (single or double). -/
def quoteChar (c : Char) : Bool := c == '\'' || c == '"'

/-- A word character, `[a-zA-Z0-9_]`. -/
def wordChar (c : Char) : Bool := c.isAlpha || c.isDigit || c == '_'

/-- Matcher for `(['"])?([a-zA-Z0-9_]+)(['"])?\s*:` with replacement
`"$2":` (quote property names). -/
def mQuoteKey (l : List Char) : Option (List Char × List Char) :=
  let rest0 := match l with
    | c :: r => if quoteChar c then r else l
    | [] => l
  let word := rest0.takeWhile wordChar
  let rest1 := rest0.dropWhile wordChar
  if word.isEmpty then none
  else
    let rest2 := match rest1 with
      | c :: r => if quoteChar c then r else rest1
      | [] => rest1
    match rest2.dropWhile wsChar with
    | ':' :: rest4 => some ('"' :: word ++ ['"', ':'], rest4)
    | _ => none

/-- Matcher for `:\s*'([^']*)'` with replacement `:"$1"`. -/
def mSingleVal : List Char → Option (List Char × List Char)
  | ':' :: r =>
    match r.dropWhile wsChar with
    | '\'' :: r2 =>
      match List.span (fun c => c != '\'') r2 with
      | (body, '\'' :: r3) => some (':' :: '"' :: body ++ ['"'], r3)
      | _ => none
    | _ => none
  | _ => none

/-- Split a list around its last single quote: `(before, after)`. -/
def lastQuoteSplit : List Char → Option (List Char × List Char)
  | [] => none
  | c :: cs =>
    match lastQuoteSplit cs with
    | some (a, b) => some (c :: a, b)
    | none => if c == '\'' then some ([], cs) else none

/-- Matcher for `:\s*"([^"]*)'` with replacement `:"$1"` (a greedy
`[^"]*` backtracks to the last single quote in the run of
non-double-quote characters). -/
def mMismatch : List Char → Option (List Char × List Char)
  | ':' :: r =>
    match r.dropWhile wsChar with
    | '"' :: r2 =>
      let run := r2.takeWhile (fun c => c != '"')
      let r3 := r2.dropWhile (fun c => c != '"')
      match lastQuoteSplit run with
      | some (body, after) => some (':' :: '"' :: body ++ ['"'], after ++ r3)
      | none => none
    | _ => none
  | _ => none

/-- Matcher for `:\s*'([^"]*)` with replacement `:"$1"` (an unclosed
single-quoted value swallows everything up to the next double quote or
the end of the input). -/
def mUnclosed : List Char → Option (List Char × List Char)
  | ':' :: r =>
    match r.dropWhile wsChar with
    | '\'' :: r2 =>
      let run := r2.takeWhile (fun c => c != '"')
      let r3 := r2.dropWhile (fun c => c != '"')
      some (':' :: '"' :: run ++ ['"'], r3)
    | _ => none
  | _ => none

/-- Matcher for `,(\s*[}\]])` with replacement `$1` (trailing comma
before a closing bracket). -/
def mTrailComma : List Char → Option (List Char × List Char)
  | ',' :: r =>
    let w := r.takeWhile wsChar
    match r.dropWhile wsChar with
    | c :: r2 => if c == '\x7d' || c == ']' then some (w ++ [c], r2) else none
    | [] => none
  | _ => none

/-- `\s*,\s*` followed by the end of the input? -/
def wsCommaEnd (l : List Char) : Bool :=
  match l.dropWhile wsChar with
  | ',' :: r => (r.dropWhile wsChar).isEmpty
  | _ => false

/-- The end-anchored replace `([}\]])\s*,\s*$` → `$1` (leftmost match). -/
def endCommaFix : List Char → List Char
  | [] => []
  | c :: cs =>
    if (c == '\x7d' || c == ']') && wsCommaEnd cs then [c]
    else c :: endCommaFix cs

/-- Matcher for a closing bracket `a`, optional whitespace, and an
opening bracket `b`, with replacement `rep` (the four missing-comma
replaces of `repairJSON`). -/
def mPair (a b : Char) (rep : List Char) : List Char → Option (List Char × List Char)
  | c :: r =>
    if c == a then
      match r.dropWhile wsChar with
      | d :: r2 => if d == b then some (rep, r2) else none
      | [] => none
    else none
  | [] => none

/-- The whitespace-collapse replace `\s+` → `' '`. -/
def collapseWS : List Char → List Char
  | [] => []
  | [c] => if wsChar c then [' '] else [c]
  | c :: d :: ds =>
    if wsChar c then
      if wsChar d then collapseWS (d :: ds)
      else ' ' :: collapseWS (d :: ds)
    else c :: collapseWS (d :: ds)

/-- The full repair pass on characters, in the source's order of
replaces. -/
def repairChars (l0 : List Char) : List Char :=
  let a := runReplace mTag l0.length l0
  let b := runReplace mFenceJson a.length a
  let c := runReplace mFence b.length b
  let d := sliceBraces c
  let e := runReplace mQuoteKey d.length d
  let f := runReplace mSingleVal e.length e
  let g := runReplace mMismatch f.length f
  let h := runReplace mUnclosed g.length g
  let i := runReplace mTrailComma h.length h
  let j := endCommaFix i
  let k := runReplace (mPair '\x7d' '\x7b' ['\x7d', ',', '\x7b']) j.length j
  let m := runReplace (mPair ']' '\x7b' [',', '\x7b']) k.length k
  let n := runReplace (mPair '\x7d' '[' [',', '[']) m.length m
  let p := runReplace (mPair ']' '[' [',', '[']) n.length n
  trimChars (collapseWS p)

/-- Model of `repairJSON` of `server/api.js`. -/
def repairJSON (s : String) : String := String.mk (repairChars s.data)

/-! ## The extraction fallback and the normalizer
(`getGroqCompletion` of `server/api.js`, lines 254-287) -/

/-- Innermost level of the extraction pattern: `\x7b[^{}]*\x7d`
(no nesting).  Returns the matched text and the rest. -/
def matchDepth1 : List Char → Option (List Char × List Char)
  | '\x7b' :: r =>
    match List.span (fun c => c != '\x7b' && c != '\x7d') r with
    | (body, '\x7d' :: rest) => some ('\x7b' :: body ++ ['\x7d'], rest)
    | _ => none
  | _ => none

/-- Body loop of a brace group whose nested groups are matched by
`inner`: a run of `[^{}]` characters or `inner` groups, then the closing
brace.  Returns the consumed text (closing brace included) and the rest. -/
def braceLoop (inner : List Char → Option (List Char × List Char)) :
    Nat → List Char → Option (List Char × List Char)
  | 0, _ => none
  | _ + 1, [] => none
  | f + 1, c :: r =>
    if c == '\x7d' then some (['\x7d'], r)
    else if c == '\x7b' then
      match inner (c :: r) with
      | some (m, rest) =>
        match braceLoop inner f rest with
        | some (ms, r2) => some (m ++ ms, r2)
        | none => none
      | none => none
    else
      match braceLoop inner f r with
      | some (ms, r2) => some (c :: ms, r2)
      | none => none

/-- Middle level of the extraction pattern:
`\x7b(?:[^{}]|\x7b[^{}]*\x7d)*\x7d` (one nested level inside). -/
def matchDepth2 (f : Nat) : List Char → Option (List Char × List Char)
  | '\x7b' :: r =>
    match braceLoop matchDepth1 f r with
    | some (ms, rest) => some ('\x7b' :: ms, rest)
    | none => none
  | _ => none

/-- The source's whole extraction pattern
`\x7b(?:[^{}]|(?:\x7b(?:[^{}]|(?:\x7b[^{}]*\x7d))*\x7d))*\x7d`:
a brace group with two levels of nesting inside. -/
def matchDepth3 (f : Nat) : List Char → Option (List Char × List Char)
  | '\x7b' :: r =>
    match braceLoop (matchDepth2 f) f r with
    | some (ms, rest) => some ('\x7b' :: ms, rest)
    | none => none
  | _ => none

/-- All non-overlapping matches of `m`, scanning left to right
(JavaScript `String.prototype.match` with a global regex). -/
def scanMatches (m : List Char → Option (List Char × List Char)) :
    Nat → List Char → List String
  | 0, _ => []
  | _ + 1, [] => []
  | f + 1, c :: cs =>
    match m (c :: cs) with
    | some (mt, rest) => String.mk mt :: scanMatches m f rest
    | none => scanMatches m f cs

/-- The candidate JSON-object substrings the source's extraction regex
finds in `s`. -/
def jsonCandidates (s : String) : List String :=
  scanMatches (fun l => matchDepth3 (l.length + 1) l) (s.data.length + 1) s.data

/-- Modelled from the spec: candidate substrings under a balanced-brace
pattern "supporting one level of nesting"
(`\x7b(?:[^{}]|\x7b[^{}]*\x7d)*\x7d`), stated for comparison with the
source's two-level pattern `matchDepth3`. -/
def jsonCandidatesOneLevel (s : String) : List String :=
  scanMatches (fun l => matchDepth2 (l.length + 1) l) (s.data.length + 1) s.data

/-- The first candidate that parses (the extraction loop of
`getGroqCompletion`). -/
def firstParse : List String → Option JVal
  | [] => none
  | c :: cs =>
    match parseJSON c with
    | .ok v => some v
    | .error _ => firstParse cs

/-- The message prefix of the error thrown when every stage fails. -/
def errHeader : String := "Failed to parse JSON after all repair attempts: "

/-- Which stage of the normalizer produced the value. -/
inductive Stage where
  | direct
  | repaired
  | extracted
deriving DecidableEq

/-- The parse cascade of `getGroqCompletion` (lines 254-287 of
`server/api.js`), instrumented with the stage that succeeded: trim, try a
direct parse, repair and re-parse, extract candidate objects and return
the first that parses; when every stage fails, the thrown error's message
is built from the repair-stage parse error (the source then returns
`JSON.stringify` of the parsed value; the model returns the value). -/
def normalizeStaged (raw : String) : Except String (JVal × Stage) :=
  let content := trimStr raw
  match parseJSON content with
  | .ok v => .ok (v, .direct)
  | .error _ =>
    let repaired := repairJSON content
    match parseJSON repaired with
    | .ok v => .ok (v, .repaired)
    | .error m2 =>
      match firstParse (jsonCandidates repaired) with
      | some v => .ok (v, .extracted)
      | none => .error (errHeader ++ m2)

/-- The normalizer without the stage instrumentation. -/
def normalizeResponse (raw : String) : Except String JVal :=
  (normalizeStaged raw).map (fun p => p.1)

/-- Modelled from the spec: the same cascade with the spec's one-level
extraction pattern in place of the source's two-level pattern, stated for
comparison in the refinement claim about extraction. -/
def normalizeOneLevelSpec (raw : String) : Except String (JVal × Stage) :=
  let content := trimStr raw
  match parseJSON content with
  | .ok v => .ok (v, .direct)
  | .error _ =>
    let repaired := repairJSON content
    match parseJSON repaired with
    | .ok v => .ok (v, .repaired)
    | .error m2 =>
      match firstParse (jsonCandidatesOneLevel repaired) with
      | some v => .ok (v, .extracted)
      | none => .error (errHeader ++ m2)

/-! ## The Diagram Resolver
(`src/components/PlantUMLViewer.jsx`)

The external `plantuml-encoder` library is abstracted as a parameter
`enc : String → Option String` (`none` models a thrown encode error; the
real deflate-based encoder is total). -/

/-- The primary rendering endpoint. -/
def plantumlServer : String := "https://www.plantuml.com/plantuml"

/-- The backup rendering endpoint. -/
def plantumlServerBackup : String := "https://plantuml-server.kkeisuke.dev/svg"

/-- A render request: the component's `content` and `title` props (an
absent title is the empty string, which is falsy in the source). -/
structure DiagramRequest where
  content : String
  title : String

/-- What the component ends up rendering: the image URL and whether the
fallback path produced it. -/
structure DiagramReference where
  url : String
  isFallback : Bool

/-- The delimiting step: prepend `@startuml` when absent from the
content, append `@enduml` when absent (both checks are on the original
content). -/
def ensureDelimited (content : String) : String :=
  let p1 := if containsStr content "@startuml" then content else "@startuml\n" ++ content
  if containsStr content "@enduml" then p1 else p1 ++ "\n@enduml"

/-- The diagram categories of the fallback classifier. -/
inductive DiagramType where
  | usecase
  | sequence
  | activity
  | component
  | classDiag
deriving DecidableEq

/-- The keyword classifier of `simplifyUml`, in the source's priority
order over the lower-cased original content. -/
def classifyDiagram (c : String) : DiagramType :=
  let lc := lowerStr c
  if containsStr lc "actor" || containsStr lc "usecase" then .usecase
  else if containsStr lc "participant" || containsStr lc "->" then .sequence
  else if containsStr lc "start" && containsStr lc "stop" then .activity
  else if containsStr lc "component" then .component
  else .classDiag

/-- The fixed minimal body of each diagram category (the `switch` blocks
of `simplifyUml`, newlines as in the source's template literals). -/
def diagramBody : DiagramType → String
  | .usecase =>
    "\nactor User\nactor Admin\nrectangle System \x7b\n  usecase \"Use Case 1\"\n  usecase \"Use Case 2\"\n\x7d\nUser --> (Use Case 1)\nAdmin --> (Use Case 2)\n"
  | .sequence =>
    "\nparticipant User\nparticipant System\nparticipant Database\nUser -> System: Request\nSystem -> Database: Query\nDatabase --> System: Response\nSystem --> User: Result\n"
  | .activity =>
    "\nstart\n:Process Task;\nif (Condition) then (yes)\n  :Task A;\nelse (no)\n  :Task B;\nendif\n:Final Task;\nstop\n"
  | .component =>
    "\npackage \"Frontend\" \x7b\n  [UI Components]\n\x7d\npackage \"Backend\" \x7b\n  [API]\n  [Database]\n\x7d\n[UI Components] --> [API]\n[API] --> [Database]\n"
  | .classDiag =>
    "\nclass User \x7b\n  +username: String\n  +email: String\n  +login()\n\x7d\nclass System \x7b\n  +processRequest()\n\x7d\nUser -- System\n"

/-- The title line's text: `title || 'UML Diagram'`. -/
def titleOrDefault (t : String) : String :=
  if t == "" then "UML Diagram" else t

/-- A minimal diagram of the given category embedding the given title
(the assembled template of `simplifyUml`). -/
def diagramTemplate (d : DiagramType) (tt : String) : String :=
  "@startuml\ntitle " ++ tt ++ "\n" ++ diagramBody d ++ "\n@enduml"

/-- Model of `simplifyUml`: classify the original content, then build the
fixed minimal template with the component's title. -/
def simplifyUml (title content : String) : String :=
  diagramTemplate (classifyDiagram content) (titleOrDefault title)

/-- The fallback branch of the effect (the inner `try` of the `catch`):
simplify, encode, and address the backup endpoint; when the fallback
encode also fails, the image URL keeps its initial empty value. -/
def fallbackResolve (enc : String → Option String) (content title : String) :
    DiagramReference :=
  match enc (simplifyUml title content) with
  | some e => ⟨plantumlServerBackup ++ "/" ++ e, true⟩
  | none => ⟨"", true⟩

/-- Model of the effect body of `PlantUMLViewer`: empty (after trimming)
content throws and takes the fallback branch; otherwise the delimited
content is encoded and addressed to the primary endpoint, with any
encode failure absorbed by the fallback branch. -/
def resolve (enc : String → Option String) (req : DiagramRequest) :
    DiagramReference :=
  if trimStr req.content == "" then fallbackResolve enc req.content req.title
  else
    match enc (ensureDelimited req.content) with
    | some e => ⟨plantumlServer ++ "/svg/" ++ e, false⟩
    | none => fallbackResolve enc req.content req.title

/-! ## The task-breakdown route
(`app.post('/api/breakdown-tasks')` of `server/api.js`, modelled from the
completion call onward; the missing-`documents` 400 guard precedes this
and is outside the modelled claims). -/

/-- JavaScript property read on an object value: the last binding of the
key (later duplicate keys overwrite earlier ones), `undefined` when the
key is absent or the value is not an object. -/
def objGet (fs : List (String × JVal)) (key : String) : JVal :=
  match fs.reverse.find? (fun p => p.1 == key) with
  | some p => p.2
  | none => .jundefined

/-- Total property read for values where JavaScript member access does
not throw (everything but `null`/`undefined`). -/
def fieldOf : JVal → String → JVal
  | .jobj fs, key => objGet fs key
  | _, _ => .jundefined

/-- JavaScript truthiness of the modelled values. -/
def truthy : JVal → Bool
  | .jnull => false
  | .jundefined => false
  | .jbool b => b
  | .jnum n => n != 0
  | .jstr s => s != ""
  | .jarr _ => true
  | .jobj _ => true

/-- The validated task built from the property reads `g` of one raw task
at position `i` (lines 449-455 of `server/api.js`): `||`-defaults for
`id`, `name` and `description`, a `typeof`-check default for
`estimatedHours` and an `Array.isArray` default for `requiredSkills`. -/
def mkValidated (g : String → JVal) (i : Nat) : JVal :=
  .jobj
    [("id", if truthy (g "id") then g "id" else .jstr ("task_" ++ toString (i + 1))),
     ("name", if truthy (g "name") then g "name" else .jstr ("Task " ++ toString (i + 1))),
     ("description", if truthy (g "description") then g "description"
       else .jstr "No description provided"),
     ("estimatedHours", match g "estimatedHours" with
       | .jnum n => .jnum n
       | _ => .jnum 4),
     ("requiredSkills", match g "requiredSkills" with
       | .jarr xs => .jarr xs
       | _ => .jarr [.jstr "General"])]

/-- One step of the validation map: member access on `null`/`undefined`
throws (`.error ()`), every other element is validated. -/
def validateTask (t : JVal) (i : Nat) : Except Unit JVal :=
  match t with
  | .jnull => .error ()
  | .jundefined => .error ()
  | _ => .ok (mkValidated (fun k => fieldOf t k) i)

/-- `tasks.map((task, index) => ...)` over the validation, short-circuiting
on a thrown member access. -/
def validateTasks : List JVal → Nat → Except Unit (List JVal)
  | [], _ => .ok []
  | t :: ts, i =>
    match validateTask t i with
    | .ok v =>
      match validateTasks ts (i + 1) with
      | .ok vs => .ok (v :: vs)
      | .error e => .error e
    | .error e => .error e

/-- The single fallback task substituted when the parsed result is
neither an array nor an object with an array `tasks` field. -/
def fallbackSingleTask : JVal :=
  .jobj
    [("id", .jstr "1"),
     ("name", .jstr "Review Requirements"),
     ("description", .jstr "Review the provided documentation and break down into actionable tasks."),
     ("estimatedHours", .jnum 4),
     ("requiredSkills", .jarr [.jstr "Business Analysis", .jstr "Project Management"])]

/-- The fixed tasks of the parse-error catch branch. -/
def parseErrorFallbackTasks : List JVal :=
  [.jobj
    [("id", .jstr "fallback_1"),
     ("name", .jstr "Review Project Requirements"),
     ("description", .jstr "Review the documentation and identify key technical requirements."),
     ("estimatedHours", .jnum 4),
     ("requiredSkills", .jarr [.jstr "Business Analysis", .jstr "Technical Documentation"])],
   .jobj
    [("id", .jstr "fallback_2"),
     ("name", .jstr "Create Technical Implementation Plan"),
     ("description", .jstr "Develop a technical plan based on project requirements."),
     ("estimatedHours", .jnum 8),
     ("requiredSkills", .jarr [.jstr "Project Management", .jstr "Technical Architecture"])]]

/-- The fixed tasks of the outer (general-error) catch branch. -/
def emergencyFallbackTasks : List JVal :=
  [.jobj
    [("id", .jstr "emergency_1"),
     ("name", .jstr "Document Review"),
     ("description", .jstr "Review project requirements and documents."),
     ("estimatedHours", .jnum 4),
     ("requiredSkills", .jarr [.jstr "Documentation", .jstr "Analysis"])]]

/-- `Array.isArray(result) ? result : (result.tasks && Array.isArray(result.tasks))
? result.tasks : [fallback]`, with member access throwing on
`null`/`undefined`. -/
def pickTasks : JVal → Except Unit (List JVal)
  | .jarr xs => .ok xs
  | .jnull => .error ()
  | .jundefined => .error ()
  | r =>
    match fieldOf r "tasks" with
    | .jarr ys => .ok ys
    | _ => .ok [fallbackSingleTask]

/-- The `/api/breakdown-tasks` handler from the completion call onward:
an HTTP status and a JSON body.  A failed completion is the outer catch
(emergency fallback tasks plus the error message); a completion whose
text does not parse, or whose processing throws, is the inner catch
(fixed fallback tasks); otherwise the validated tasks are returned.
Every branch responds with status 200. -/
def breakdownRoute (completion : Except String String) : Nat × JVal :=
  match completion with
  | .error e => (200, .jobj [("tasks", .jarr emergencyFallbackTasks), ("error", .jstr e)])
  | .ok comp =>
    match parseJSON comp with
    | .error _ => (200, .jobj [("tasks", .jarr parseErrorFallbackTasks)])
    | .ok result =>
      match pickTasks result with
      | .error _ => (200, .jobj [("tasks", .jarr parseErrorFallbackTasks)])
      | .ok ts =>
        match validateTasks ts 0 with
        | .ok vs => (200, .jobj [("tasks", .jarr vs)])
        | .error _ => (200, .jobj [("tasks", .jarr parseErrorFallbackTasks)])

/-! ## Helper lemmas -/

theorem listPrefixOf_append (p l r : List Char) (h : listPrefixOf p l = true) :
    listPrefixOf p (l ++ r) = true := by
  induction p generalizing l with
  | nil => simp [listPrefixOf]
  | cons a as ih =>
    cases l with
    | nil => simp [listPrefixOf] at h
    | cons b bs =>
      simp only [listPrefixOf, Bool.and_eq_true] at h ⊢
      exact ⟨h.1, ih bs h.2⟩

theorem containsList_nil_left (l : List Char) : containsList [] l = true := by
  cases l <;> simp [containsList, listPrefixOf]

theorem containsList_of_prefixOf (n h : List Char) (hp : listPrefixOf n h = true) :
    containsList n h = true := by
  cases h with
  | nil =>
    cases n with
    | nil => rfl
    | cons a as => simp [listPrefixOf] at hp
  | cons c cs => simp [containsList, hp]

theorem containsList_append_left (n a b : List Char) (h : containsList n a = true) :
    containsList n (a ++ b) = true := by
  induction a with
  | nil =>
    simp only [containsList, List.isEmpty_iff] at h
    subst h
    simpa using containsList_nil_left b
  | cons c cs ih =>
    simp only [containsList, Bool.or_eq_true] at h ⊢
    rcases h with h | h
    · exact Or.inl (listPrefixOf_append _ _ _ h)
    · exact Or.inr (ih h)

theorem containsList_append_right (n a b : List Char) (h : containsList n b = true) :
    containsList n (a ++ b) = true := by
  induction a with
  | nil => simpa using h
  | cons c cs ih =>
    simp only [List.cons_append, containsList, Bool.or_eq_true]
    exact Or.inr ih

theorem str_data_append (a b : String) : (a ++ b).data = a.data ++ b.data := by
  cases a
  cases b
  rfl

theorem append_ne_empty (a b : String) (h : a.data ≠ []) : a ++ b ≠ "" := by
  intro he
  apply h
  have hd : (a ++ b).data = ("" : String).data := congrArg String.data he
  rw [str_data_append] at hd
  exact (List.append_eq_nil.mp hd).1

theorem collapseWS_cons_not_ws (c : Char) (l : List Char) (hc : wsChar c = false) :
    collapseWS (c :: l) = c :: collapseWS l := by
  cases l <;> simp [collapseWS, hc]

theorem collapseWS_idem (l : List Char) :
    collapseWS (collapseWS l) = collapseWS l := by
  have key : ∀ n (l : List Char), l.length ≤ n →
      collapseWS (collapseWS l) = collapseWS l := by
    intro n
    induction n with
    | zero =>
      intro l hl
      have : l = [] := List.length_eq_zero.mp (Nat.le_zero.mp hl)
      subst this
      rfl
    | succ n ih =>
      intro l hl
      cases l with
      | nil => rfl
      | cons c l' =>
        cases l' with
        | nil =>
          by_cases hc : wsChar c = true
          · simp [collapseWS, hc]
          · have hc' : wsChar c = false := by simpa using hc
            simp [collapseWS, hc']
        | cons d ds =>
          have hds : (d :: ds).length ≤ n := by
            simp only [List.length_cons] at hl ⊢
            omega
          have hdsn : ds.length ≤ n := by
            simp only [List.length_cons] at hl
            omega
          by_cases hc : wsChar c = true
          · by_cases hd : wsChar d = true
            · rw [show collapseWS (c :: d :: ds) = collapseWS (d :: ds) from by
                simp [collapseWS, hc, hd]]
              exact ih _ hds
            · have hd' : wsChar d = false := by simpa using hd
              have h1 : collapseWS (c :: d :: ds) = ' ' :: collapseWS (d :: ds) := by
                simp [collapseWS, hc, hd']
              have h3 : collapseWS (' ' :: d :: collapseWS ds) =
                  ' ' :: collapseWS (d :: collapseWS ds) := by
                simp [collapseWS, hd']
              rw [h1, collapseWS_cons_not_ws d ds hd', h3,
                collapseWS_cons_not_ws d (collapseWS ds) hd', ih _ hdsn]
          · have hc' : wsChar c = false := by simpa using hc
            rw [collapseWS_cons_not_ws c (d :: ds) hc',
              collapseWS_cons_not_ws c (collapseWS (d :: ds)) hc', ih _ hds]
  exact key l.length l le_rfl

/-! ## Claims about the Response Normalizer -/

/-- Claim C1: for every input string that is syntactically valid JSON
after trimming, the normalizer returns the value `JSON.parse` gives and
produces it by stage 1 alone — no repair transform and no extraction
fallback is applied. -/
theorem c1_direct_parse_short_circuits (raw : String) (v : JVal)
    (h : parseJSON (trimStr raw) = .ok v) :
    normalizeStaged raw = .ok (v, Stage.direct) := by
  simp only [normalizeStaged, h]

/-- Witness for C1 at the concrete valid input `" {"a": 1} "`. -/
theorem c1_witness :
    normalizeStaged " \x7b\"a\": 1\x7d " = .ok (.jobj [("a", .jnum 1)], Stage.direct) :=
  c1_direct_parse_short_circuits _ _ (by rfl)

/-- Claim C3 (amended): the normalizer's error is raised exactly when
direct parse, repair and extraction have all failed, and its message
carries the repair-stage parse diagnostic (not the original raw text). -/
theorem c3_error_iff_all_stages_fail (raw e : String) :
    normalizeStaged raw = .error e ↔
      ∃ m1 m2, parseJSON (trimStr raw) = .error m1 ∧
        parseJSON (repairJSON (trimStr raw)) = .error m2 ∧
        firstParse (jsonCandidates (repairJSON (trimStr raw))) = none ∧
        e = errHeader ++ m2 := by
  constructor
  · intro he
    simp only [normalizeStaged] at he
    cases h1 : parseJSON (trimStr raw) with
    | ok v => rw [h1] at he; exact absurd he (by simp)
    | error m1 =>
      rw [h1] at he
      cases h2 : parseJSON (repairJSON (trimStr raw)) with
      | ok v => rw [h2] at he; exact absurd he (by simp)
      | error m2 =>
        rw [h2] at he
        cases h3 : firstParse (jsonCandidates (repairJSON (trimStr raw))) with
        | some v => rw [h3] at he; exact absurd he (by simp)
        | none =>
          rw [h3] at he
          simp only [Except.error.injEq] at he
          exact ⟨m1, m2, rfl, rfl, rfl, he.symm⟩
  · rintro ⟨m1, m2, h1, h2, h3, he⟩
    simp only [normalizeStaged, h1, h2, h3, he]

set_option maxHeartbeats 40000000 in
/-- Counterexample for C3 as stated: two different raw inputs produce
the very same error value, so the error cannot carry the original raw
text. -/
theorem c3_counterexample_no_raw_text :
    normalizeStaged "<p>alpha</p>" =
      .error "Failed to parse JSON after all repair attempts: unexpected character a" ∧
    normalizeStaged "alpha" =
      .error "Failed to parse JSON after all repair attempts: unexpected character a" ∧
    "<p>alpha</p>" ≠ "alpha" :=
  ⟨by rfl, by rfl, by decide⟩

/-- Claim C4: evaluation of the four bracket-pair replaces.  Only
`}{` keeps both brackets (`},{`); `]{`, `}[` and `][` are rewritten to
`,{` and `,[`, dropping the closing bracket, against the documented
intent of inserting a missing comma. -/
theorem c4_bracket_pair_evaluation :
    repairJSON "\x7b\x7d \x7b\x7d" = "\x7b\x7d,\x7b\x7d" ∧
    repairJSON "]\x7b" = ",\x7b" ∧
    repairJSON "\x7d[" = ",[" ∧
    repairJSON "][" = ",[" :=
  ⟨by decide, by decide, by decide, by decide⟩

/-- Counterexample for C5 as stated: the repair pass is not idempotent
(`{a:'b}` repairs differently the second time), and it corrupts a
string that is already valid JSON (`{"a":"<b>"}` parses to a different
value after repair). -/
theorem c5_counterexample_not_idempotent :
    repairJSON (repairJSON "\x7ba:'b\x7d") ≠ repairJSON "\x7ba:'b\x7d" ∧
    parseJSON "\x7b\"a\":\"<b>\"\x7d" = .ok (.jobj [("a", .jstr "<b>")]) ∧
    parseJSON (repairJSON "\x7b\"a\":\"<b>\"\x7d") = .ok (.jobj [("a", .jstr "")]) ∧
    JVal.jobj [("a", .jstr "<b>")] ≠ JVal.jobj [("a", .jstr "")] :=
  ⟨by decide, by rfl, by rfl, by simp⟩

/-- Claim C5 (amended): the repair stages are deterministic
string-to-string functions and the final whitespace-collapse stage is
idempotent, but the pass as a whole is not idempotent, and applying it
to an already-valid JSON string can corrupt the parsed value. -/
theorem c5_collapse_idem_pass_not :
    (∀ l : List Char, collapseWS (collapseWS l) = collapseWS l) ∧
    repairJSON (repairJSON "\x7ba:'b\x7d") ≠ repairJSON "\x7ba:'b\x7d" ∧
    ∃ s v w, parseJSON s = .ok v ∧ parseJSON (repairJSON s) = .ok w ∧ v ≠ w :=
  ⟨collapseWS_idem, by decide,
    ⟨"\x7b\"a\":\"<b>\"\x7d", .jobj [("a", .jstr "<b>")], .jobj [("a", .jstr "")],
      by rfl, by rfl, by simp⟩⟩

/-- Claim C6 (amended): when direct parse and repair both fail, the
normalizer enumerates the candidate object substrings matched by the
source's balanced-brace pattern (which supports two levels of nesting),
attempts them in order of appearance, and returns the first that
parses. -/
theorem c6_extraction_in_order (raw m1 m2 : String)
    (h1 : parseJSON (trimStr raw) = .error m1)
    (h2 : parseJSON (repairJSON (trimStr raw)) = .error m2) :
    normalizeStaged raw =
      (match firstParse (jsonCandidates (repairJSON (trimStr raw))) with
        | some v => .ok (v, Stage.extracted)
        | none => .error (errHeader ++ m2)) ∧
    (∀ c cs v, parseJSON c = .ok v → firstParse (c :: cs) = some v) ∧
    (∀ c cs m, parseJSON c = .error m → firstParse (c :: cs) = firstParse cs) := by
  refine ⟨?_, ?_, ?_⟩
  · simp only [normalizeStaged, h1, h2]
  · intro c cs v h
    simp [firstParse, h]
  · intro c cs m h
    simp [firstParse, h]

set_option maxHeartbeats 40000000 in
/-- Witness for C6 at a concrete input whose direct parse and repair
both fail and whose extraction succeeds on a depth-three candidate. -/
theorem c6_witness :
    normalizeStaged "\x7b] \x7b\"a\":\x7b\"b\":\x7b\"c\":1\x7d\x7d\x7d" =
      .ok (.jobj [("a", .jobj [("b", .jobj [("c", .jnum 1)])])], Stage.extracted) := by
  rw [(c6_extraction_in_order "\x7b] \x7b\"a\":\x7b\"b\":\x7b\"c\":1\x7d\x7d\x7d"
    "expected string key in object" "expected string key in object" (by rfl) (by rfl)).1]
  rfl

set_option maxHeartbeats 40000000 in
/-- Counterexample for C6 as stated: on a concrete input the source's
pattern matches a depth-three object in full, while a pattern supporting
only one level of nesting extracts a different (inner) object, so the
two pipelines return different values. -/
theorem c6_counterexample_one_level_differs :
    normalizeStaged "\x7b] \x7b\"a\":\x7b\"b\":\x7b\"c\":1\x7d\x7d\x7d" =
      .ok (.jobj [("a", .jobj [("b", .jobj [("c", .jnum 1)])])], Stage.extracted) ∧
    normalizeOneLevelSpec "\x7b] \x7b\"a\":\x7b\"b\":\x7b\"c\":1\x7d\x7d\x7d" =
      .ok (.jobj [("b", .jobj [("c", .jnum 1)])], Stage.extracted) ∧
    JVal.jobj [("a", .jobj [("b", .jobj [("c", .jnum 1)])])] ≠
      JVal.jobj [("b", .jobj [("c", .jnum 1)])] :=
  ⟨by rfl, by rfl, by simp⟩

/-! ## Claims about the Diagram Resolver -/

/-- Claim C2: with a total encoder (as the real deflate-based encoder
is), `resolve` never fails outward and, for every request with non-empty
content, returns a non-empty well-formed absolute URL: any internal
encode or validation failure is absorbed by the synthetic-minimal-diagram
fallback. -/
theorem c2_resolve_wellformed_url (enc : String → Option String)
    (req : DiagramRequest) (henc : ∀ s, (enc s).isSome = true)
    (_hne : req.content ≠ "") :
    (resolve enc req).url ≠ "" ∧
    listPrefixOf "https://".data (resolve enc req).url.data = true := by
  have hb : ∀ (base e : String), base.data ≠ [] →
      listPrefixOf "https://".data base.data = true →
      base ++ e ≠ "" ∧ listPrefixOf "https://".data (base ++ e).data = true := by
    intro base e h1 h2
    refine ⟨append_ne_empty base e h1, ?_⟩
    rw [str_data_append]
    exact listPrefixOf_append _ _ _ h2
  unfold resolve
  by_cases ht : (trimStr req.content == "") = true
  · rw [if_pos ht]
    cases he : enc (simplifyUml req.title req.content) with
    | none =>
      have := henc (simplifyUml req.title req.content)
      rw [he] at this
      simp at this
    | some e =>
      simp only [fallbackResolve, he]
      exact hb _ e (by decide) (by decide)
  · rw [if_neg ht]
    cases he : enc (ensureDelimited req.content) with
    | none =>
      have := henc (ensureDelimited req.content)
      rw [he] at this
      simp at this
    | some e =>
      simp only [he]
      exact hb _ e (by decide) (by decide)

/-- Witness for C2 with the identity-like total encoder. -/
theorem c2_witness :
    (resolve (fun s => some s) ⟨"A -> B", "T"⟩).url ≠ "" ∧
    listPrefixOf "https://".data
      (resolve (fun s => some s) ⟨"A -> B", "T"⟩).url.data = true :=
  c2_resolve_wellformed_url _ _ (fun _ => rfl) (by decide)

/-- Claim C7: on failure of the primary path the result is
fallback-flagged, addressed to the backup endpoint, and built from the
fixed template of the category the keyword classifier picks, in the
source's priority order (actor/usecase, then participant/arrow, then
start-and-stop, then component, then class). -/
theorem c7_fallback_classifier (enc : String → Option String) (c t e : String)
    (hfail : enc (ensureDelimited c) = none)
    (henc : enc (simplifyUml t c) = some e) :
    resolve enc ⟨c, t⟩ = ⟨plantumlServerBackup ++ "/" ++ e, true⟩ ∧
    simplifyUml t c = diagramTemplate (classifyDiagram c) (titleOrDefault t) ∧
    ((containsStr (lowerStr c) "actor" || containsStr (lowerStr c) "usecase") = true →
      classifyDiagram c = .usecase) ∧
    ((containsStr (lowerStr c) "actor" || containsStr (lowerStr c) "usecase") = false →
      (containsStr (lowerStr c) "participant" || containsStr (lowerStr c) "->") = true →
      classifyDiagram c = .sequence) ∧
    ((containsStr (lowerStr c) "actor" || containsStr (lowerStr c) "usecase") = false →
      (containsStr (lowerStr c) "participant" || containsStr (lowerStr c) "->") = false →
      (containsStr (lowerStr c) "start" && containsStr (lowerStr c) "stop") = true →
      classifyDiagram c = .activity) ∧
    ((containsStr (lowerStr c) "actor" || containsStr (lowerStr c) "usecase") = false →
      (containsStr (lowerStr c) "participant" || containsStr (lowerStr c) "->") = false →
      (containsStr (lowerStr c) "start" && containsStr (lowerStr c) "stop") = false →
      containsStr (lowerStr c) "component" = true →
      classifyDiagram c = .component) ∧
    ((containsStr (lowerStr c) "actor" || containsStr (lowerStr c) "usecase") = false →
      (containsStr (lowerStr c) "participant" || containsStr (lowerStr c) "->") = false →
      (containsStr (lowerStr c) "start" && containsStr (lowerStr c) "stop") = false →
      containsStr (lowerStr c) "component" = false →
      classifyDiagram c = .classDiag) := by
  refine ⟨?_, rfl, ?_, ?_, ?_, ?_, ?_⟩
  · unfold resolve
    by_cases ht : (trimStr c == "") = true
    · rw [if_pos ht]
      simp only [fallbackResolve, henc]
    · rw [if_neg ht]
      simp only [hfail, fallbackResolve, henc]
  · intro h1
    simp only [classifyDiagram, h1, if_true]
  · intro h1 h2
    simp only [classifyDiagram, h1, h2, if_true, Bool.false_eq_true, if_false]
  · intro h1 h2 h3
    simp only [classifyDiagram, h1, h2, h3, if_true, Bool.false_eq_true, if_false]
  · intro h1 h2 h3 h4
    simp only [classifyDiagram, h1, h2, h3, h4, if_true, Bool.false_eq_true, if_false]
  · intro h1 h2 h3 h4
    simp only [classifyDiagram, h1, h2, h3, h4, Bool.false_eq_true, if_false]

set_option maxHeartbeats 2000000 in
set_option maxRecDepth 8192 in
/-- Witness for C7: content containing "participant A" without
start/stop markers, under an induced primary encode failure, yields a
fallback-flagged result whose body contains "participant". -/
theorem c7_witness :
    (resolve (fun s => if s == ensureDelimited "participant A" then none else some s)
      ⟨"participant A", "Design"⟩).isFallback = true ∧
    containsStr (simplifyUml "Design" "participant A") "participant" = true := by
  refine ⟨?_, by decide⟩
  rw [(c7_fallback_classifier
    (fun s => if s == ensureDelimited "participant A" then none else some s)
    "participant A" "Design" (simplifyUml "Design" "participant A")
    (by decide) (by decide)).1]

/-- Claim C8: the delimiting step adds each marker only when absent, so
content already holding both markers is returned unchanged (markers are
never duplicated), and the output always holds both markers. -/
theorem c8_delimit_no_duplication (c : String) :
    (containsStr c "@startuml" = true → containsStr c "@enduml" = true →
      ensureDelimited c = c) ∧
    containsStr (ensureDelimited c) "@startuml" = true ∧
    containsStr (ensureDelimited c) "@enduml" = true := by
  by_cases hs : containsStr c "@startuml" = true <;>
    by_cases he : containsStr c "@enduml" = true
  · have hd : ensureDelimited c = c := by simp [ensureDelimited, hs, he]
    exact ⟨fun _ _ => hd, by rw [hd]; exact hs, by rw [hd]; exact he⟩
  · have he' : containsStr c "@enduml" = false := by simpa using he
    have hd : ensureDelimited c = c ++ "\n@enduml" := by
      simp [ensureDelimited, hs, he']
    refine ⟨fun _ h2 => absurd h2 he, ?_, ?_⟩
    · rw [hd]
      simp only [containsStr, str_data_append]
      exact containsList_append_left _ _ _ hs
    · rw [hd]
      simp only [containsStr, str_data_append]
      exact containsList_append_right _ _ _ (by decide)
  · have hs' : containsStr c "@startuml" = false := by simpa using hs
    have hd : ensureDelimited c = "@startuml\n" ++ c := by
      simp [ensureDelimited, hs', he]
    refine ⟨fun h1 _ => absurd h1 hs, ?_, ?_⟩
    · rw [hd]
      simp only [containsStr, str_data_append]
      exact containsList_append_left _ _ _ (by decide)
    · rw [hd]
      simp only [containsStr, str_data_append]
      exact containsList_append_right _ _ _ he
  · have hs' : containsStr c "@startuml" = false := by simpa using hs
    have he' : containsStr c "@enduml" = false := by simpa using he
    have hd : ensureDelimited c = "@startuml\n" ++ c ++ "\n@enduml" := by
      simp [ensureDelimited, hs', he']
    refine ⟨fun h1 _ => absurd h1 hs, ?_, ?_⟩
    · rw [hd]
      simp only [containsStr, str_data_append]
      exact containsList_append_left _ _ _
        (containsList_append_left _ _ _ (by decide))
    · rw [hd]
      simp only [containsStr, str_data_append]
      exact containsList_append_right _ _ _ (by decide)

/-- Witness for C8 at content already holding both markers. -/
theorem c8_witness :
    ensureDelimited "@startuml\nA -> B\n@enduml" = "@startuml\nA -> B\n@enduml" ∧
    containsStr (ensureDelimited "@startuml\nA -> B\n@enduml") "@startuml" = true :=
  ⟨(c8_delimit_no_duplication _).1 (by decide) (by decide),
    (c8_delimit_no_duplication "@startuml\nA -> B\n@enduml").2.1⟩

/-- Claim C9: content that is empty or whitespace-only after trimming
never reaches the primary URL: `resolve` takes the fallback branch, so
the result is the fallback classification and template path's. -/
theorem c9_empty_content_fallback (enc : String → Option String) (c t : String)
    (h : trimStr c = "") :
    resolve enc ⟨c, t⟩ = fallbackResolve enc c t ∧
    (resolve enc ⟨c, t⟩).isFallback = true := by
  have hb : (trimStr c == "") = true := by rw [h]; rfl
  constructor
  · simp only [resolve, hb, if_true]
  · simp only [resolve, hb, if_true, fallbackResolve]
    cases henc : enc (simplifyUml t c) <;> simp [henc]

/-- Witness for C9 at whitespace-only content. -/
theorem c9_witness :
    resolve (fun s => some s) ⟨"   ", "T"⟩ = fallbackResolve (fun s => some s) "   " "T" ∧
    (resolve (fun s => some s) ⟨"   ", "T"⟩).isFallback = true :=
  c9_empty_content_fallback _ "   " "T" (by decide)

/-! ## Claims about the task-breakdown route -/

theorem truthy_jstr_of_ne (x : String) (h : x ≠ "") : truthy (.jstr x) = true := by
  simp only [truthy, bne_iff_ne, ne_eq]
  exact h

theorem mkValidated_props (g : String → JVal) (i : Nat) :
    truthy (fieldOf (mkValidated g i) "id") = true ∧
    truthy (fieldOf (mkValidated g i) "name") = true ∧
    truthy (fieldOf (mkValidated g i) "description") = true ∧
    (∃ n : Int, fieldOf (mkValidated g i) "estimatedHours" = .jnum n) ∧
    (∃ xs, fieldOf (mkValidated g i) "requiredSkills" = .jarr xs) ∧
    (g "id" = .jundefined →
      fieldOf (mkValidated g i) "id" = .jstr ("task_" ++ toString (i + 1))) ∧
    (g "name" = .jundefined →
      fieldOf (mkValidated g i) "name" = .jstr ("Task " ++ toString (i + 1))) ∧
    (g "description" = .jundefined →
      fieldOf (mkValidated g i) "description" = .jstr "No description provided") ∧
    ((∀ n : Int, g "estimatedHours" ≠ .jnum n) →
      fieldOf (mkValidated g i) "estimatedHours" = .jnum 4) ∧
    ((∀ xs, g "requiredSkills" ≠ .jarr xs) →
      fieldOf (mkValidated g i) "requiredSkills" = .jarr [.jstr "General"]) := by
  have hid : fieldOf (mkValidated g i) "id" =
      (if truthy (g "id") then g "id" else .jstr ("task_" ++ toString (i + 1))) := rfl
  have hname : fieldOf (mkValidated g i) "name" =
      (if truthy (g "name") then g "name" else .jstr ("Task " ++ toString (i + 1))) := rfl
  have hdesc : fieldOf (mkValidated g i) "description" =
      (if truthy (g "description") then g "description"
        else .jstr "No description provided") := rfl
  have hhours : fieldOf (mkValidated g i) "estimatedHours" =
      (match g "estimatedHours" with | JVal.jnum n => JVal.jnum n | _ => JVal.jnum 4) := rfl
  have hskills : fieldOf (mkValidated g i) "requiredSkills" =
      (match g "requiredSkills" with
        | JVal.jarr xs => JVal.jarr xs
        | _ => JVal.jarr [JVal.jstr "General"]) := rfl
  refine ⟨?_, ?_, ?_, ?_, ?_, ?_, ?_, ?_, ?_, ?_⟩
  · rw [hid]
    by_cases h : truthy (g "id") = true
    · rw [if_pos h]; exact h
    · rw [if_neg h]
      exact truthy_jstr_of_ne _ (append_ne_empty _ _ (by decide))
  · rw [hname]
    by_cases h : truthy (g "name") = true
    · rw [if_pos h]; exact h
    · rw [if_neg h]
      exact truthy_jstr_of_ne _ (append_ne_empty _ _ (by decide))
  · rw [hdesc]
    by_cases h : truthy (g "description") = true
    · rw [if_pos h]; exact h
    · rw [if_neg h]
      exact truthy_jstr_of_ne _ (by decide)
  · rw [hhours]
    cases hg : g "estimatedHours" <;> simp
  · rw [hskills]
    cases hg : g "requiredSkills" <;> simp
  · intro h
    rw [hid, h]
    simp [truthy]
  · intro h
    rw [hname, h]
    simp [truthy]
  · intro h
    rw [hdesc, h]
    simp [truthy]
  · intro h
    rw [hhours]
    cases hg : g "estimatedHours" with
    | jnum n => exact absurd hg (h n)
    | jnull => rfl
    | jundefined => rfl
    | jbool b => rfl
    | jstr s => rfl
    | jarr xs => rfl
    | jobj fs => rfl
  · intro h
    rw [hskills]
    cases hg : g "requiredSkills" with
    | jarr xs => exact absurd hg (h xs)
    | jnull => rfl
    | jundefined => rfl
    | jbool b => rfl
    | jstr s => rfl
    | jnum n => rfl
    | jobj fs => rfl

/-- Claim C10 (amended): every validated task record has all five
fields present and truthy-populated, with the listed defaults applied
when a field is absent, a number for `estimatedHours` and an array for
`requiredSkills`; `id`, `name` and `description` keep whatever truthy
value the model supplied (string or not).  Both the parse-failure and
the general-error branch of the route respond with a non-empty fixed
tasks array and success status. -/
theorem c10_validation_and_fallbacks :
    (∀ t i v, validateTask t i = .ok v →
      truthy (fieldOf v "id") = true ∧
      truthy (fieldOf v "name") = true ∧
      truthy (fieldOf v "description") = true ∧
      (∃ n : Int, fieldOf v "estimatedHours" = .jnum n) ∧
      (∃ xs, fieldOf v "requiredSkills" = .jarr xs) ∧
      (fieldOf t "id" = .jundefined →
        fieldOf v "id" = .jstr ("task_" ++ toString (i + 1))) ∧
      (fieldOf t "name" = .jundefined →
        fieldOf v "name" = .jstr ("Task " ++ toString (i + 1))) ∧
      (fieldOf t "description" = .jundefined →
        fieldOf v "description" = .jstr "No description provided") ∧
      ((∀ n : Int, fieldOf t "estimatedHours" ≠ .jnum n) →
        fieldOf v "estimatedHours" = .jnum 4) ∧
      ((∀ xs, fieldOf t "requiredSkills" ≠ .jarr xs) →
        fieldOf v "requiredSkills" = .jarr [.jstr "General"])) ∧
    (∀ e, breakdownRoute (.error e) =
        (200, .jobj [("tasks", .jarr emergencyFallbackTasks), ("error", .jstr e)]) ∧
      emergencyFallbackTasks ≠ []) ∧
    (∀ comp m, parseJSON comp = .error m →
      breakdownRoute (.ok comp) = (200, .jobj [("tasks", .jarr parseErrorFallbackTasks)]) ∧
      parseErrorFallbackTasks ≠ []) := by
  refine ⟨?_, ?_, ?_⟩
  · intro t i v h
    cases t with
    | jnull => simp [validateTask] at h
    | jundefined => simp [validateTask] at h
    | jbool b =>
      simp only [validateTask, Except.ok.injEq] at h
      subst h
      exact mkValidated_props _ i
    | jnum n =>
      simp only [validateTask, Except.ok.injEq] at h
      subst h
      exact mkValidated_props _ i
    | jstr s =>
      simp only [validateTask, Except.ok.injEq] at h
      subst h
      exact mkValidated_props _ i
    | jarr xs =>
      simp only [validateTask, Except.ok.injEq] at h
      subst h
      exact mkValidated_props _ i
    | jobj fs =>
      simp only [validateTask, Except.ok.injEq] at h
      subst h
      exact mkValidated_props _ i
  · intro e
    exact ⟨rfl, List.cons_ne_nil _ _⟩
  · intro comp m h
    refine ⟨?_, List.cons_ne_nil _ _⟩
    simp only [breakdownRoute, h]

/-- Counterexample for C10 as stated: a truthy non-string `name`
survives validation unchanged, so not every field is populated with the
right type. -/
theorem c10_counterexample_nonstring_name :
    validateTask (.jobj [("name", .jnum 123)]) 0 =
      .ok (.jobj [("id", .jstr "task_1"), ("name", .jnum 123),
        ("description", .jstr "No description provided"),
        ("estimatedHours", .jnum 4),
        ("requiredSkills", .jarr [.jstr "General"])]) ∧
    (∀ s : String, JVal.jnum 123 ≠ .jstr s) :=
  ⟨by rfl, fun s => by simp⟩

/-- Witness for C10: an empty task object gets the default `id`. -/
theorem c10_witness :
    fieldOf (mkValidated (fun k => fieldOf (JVal.jobj []) k) 0) "id" =
      .jstr ("task_" ++ toString (0 + 1)) :=
  (c10_validation_and_fallbacks.1 (JVal.jobj []) 0 _ rfl).2.2.2.2.2.1 rfl
